import Mathlib

/-!
Shallow embedding of `src/estrazione_web.py` (toggl-excel-app): a geometric
table-reconstruction engine that rebuilds a "Project and member breakdown"
table from positioned PDF word tokens.

A page is modelled by the list of tokens the external PDF-rendering
collaborator extracts from it (`extract_words_page` is the collaborator
boundary); coordinates are rationals.  Python regexes used by the code are
embedded as executable Boolean matchers on the token text, and the pandas
operations (filter, sort_values, min, quantile, join) are embedded as the
corresponding list operations.
-/

namespace Toggl

/-- Token model: one positioned word of a page, `{text, x0, x1, top, bottom}`. -/
structure Token where
  text : String
  x0 : ℚ
  x1 : ℚ
  top : ℚ
  bottom : ℚ
deriving Repr, DecidableEq

/-- Python whitespace class (`str.strip`, regex `\s`) restricted to the
characters Python treats as ASCII whitespace. -/
def pyIsSpace (c : Char) : Bool :=
  c = ' ' || c = '\t' || c = '\n' || c = '\r' || c = '\x0b' || c = '\x0c'

/-- Decimal digit, Python regex `\d` (ASCII). -/
def isDigitChar (c : Char) : Bool := c.isDigit

/-- Python `str.strip()`: drop leading and trailing whitespace. -/
def pyStrip (s : String) : String :=
  String.mk (((s.data.dropWhile pyIsSpace).reverse.dropWhile pyIsSpace).reverse)

/-- Python `str.lower()` on the ASCII letters appearing in this report. -/
def pyLower (s : String) : String :=
  String.mk (s.data.map Char.toLower)

/-- Python `str.replace(",", ".")`. -/
def replaceCommaDot (s : String) : String :=
  String.mk (s.data.map (fun c => if c = ',' then '.' else c))

/-- Split a character list into its maximal digit prefix and the rest. -/
def digitsSplit (l : List Char) : List Char × List Char :=
  (l.takeWhile isDigitChar, l.dropWhile isDigitChar)

/-- Matcher for `DUR_RE = ^\d{1,2}:\d{2}:\d{2}$` (full match, as pandas
`str.match` with a `$`-anchored pattern). -/
def matchesDUR (s : String) : Bool :=
  let p1 := digitsSplit s.data
  decide (1 ≤ p1.1.length) && decide (p1.1.length ≤ 2) &&
  match p1.2 with
  | ':' :: r2 =>
    let p2 := digitsSplit r2
    decide (p2.1.length = 2) &&
    (match p2.2 with
     | ':' :: r4 =>
       let p3 := digitsSplit r4
       decide (p3.1.length = 2) && decide (p3.2 = [])
     | _ => false)
  | _ => false

/-- Decimal tail `\d+%$` of the percentage regex: a nonempty digit run
followed by exactly a percent sign. -/
def pctTail (r : List Char) : Bool :=
  decide (1 ≤ (r.takeWhile isDigitChar).length) &&
  decide (r.dropWhile isDigitChar = ['%'])

/-- Matcher for `PCT_RE = ^\d{1,3}(?:[.,]\d+)?%$`: accepts both comma and dot
as the decimal separator. -/
def matchesPCT (s : String) : Bool :=
  decide (1 ≤ (s.data.takeWhile isDigitChar).length) &&
  decide ((s.data.takeWhile isDigitChar).length ≤ 3) &&
  (match s.data.dropWhile isDigitChar with
   | [] => false
   | c :: r2 =>
     (decide (c = '%') && decide (r2 = [])) ||
     ((decide (c = '.') || decide (c = ',')) && pctTail r2))

/-- Character class `[\d\.\s,]` of the amount regex. -/
def isAmtMid (c : Char) : Bool :=
  isDigitChar c || c = '.' || pyIsSpace c || c = ','

/-- Currency class `[€$£]` of the amount regex. -/
def isCurrency (c : Char) : Bool := c = '€' || c = '$' || c = '£'

/-- Core `\d[\d\.\s,]*\d` of the amount regex: at least two characters, first
and last digits, everything between in the middle class. -/
def amtCore (m : List Char) : Bool :=
  match m with
  | [] => false
  | c :: rest =>
    isDigitChar c &&
    (match rest.reverse with
     | [] => false
     | d :: midrev => isDigitChar d && midrev.all isAmtMid)

/-- Branch `[€$£]?\s?\d[\d\.\s,]*\d` of the amount regex. -/
def amtBranch2 (l : List Char) : Bool :=
  let l1 := match l with
    | c :: rest => if isCurrency c then rest else l
    | [] => l
  let l2 := match l1 with
    | c :: rest => if pyIsSpace c then rest else l1
    | [] => l1
  amtCore l2

/-- Branch `\d[\d\.\s,]*[€$£]` of the amount regex. -/
def amtBranch3 (l : List Char) : Bool :=
  match l with
  | [] => false
  | c :: rest =>
    isDigitChar c &&
    (match rest.reverse with
     | [] => false
     | d :: midrev => isCurrency d && midrev.all isAmtMid)

/-- Matcher for `AMT_RE = ^(-|[€$£]?\s?\d[\d\.\s,]*\d|\d[\d\.\s,]*[€$£])$`. -/
def matchesAMT (s : String) : Bool :=
  decide (s.data = ['-']) || amtBranch2 s.data || amtBranch3 s.data

/-- Substring containment on character lists (Python `needle in haystack`). -/
def listContainsSub (needle : List Char) : List Char → Bool
  | [] => decide (needle = [])
  | c :: rest => needle.isPrefixOf (c :: rest) || listContainsSub needle rest

/-- Python substring test `needle in hay` on strings. -/
def containsSub (hay needle : String) : Bool :=
  listContainsSub needle.data hay.data

/-- Minimum of a list of rationals (pandas `Series.min`). -/
def listMinQ : List ℚ → Option ℚ
  | [] => none
  | x :: xs =>
    match listMinQ xs with
    | none => some x
    | some m => some (min x m)

/-- Maximum of a list of rationals (pandas `Series.max`). -/
def listMaxQ : List ℚ → Option ℚ
  | [] => none
  | x :: xs =>
    match listMaxQ xs with
    | none => some x
    | some m => some (max x m)

/-- Ordered insert used by the sorting embeddings of `sort_values`. -/
def insertBy (key : Token → ℚ) (t : Token) : List Token → List Token
  | [] => [t]
  | u :: us => if key u ≤ key t then u :: insertBy key t us else t :: u :: us

/-- Insertion sort by a rational key (`sort_values` on one column). -/
def sortBy (key : Token → ℚ) : List Token → List Token
  | [] => []
  | t :: ts => insertBy key t (sortBy key ts)

/-- Sort tokens by their `top` coordinate ascending. -/
def sortByTop (ts : List Token) : List Token := sortBy Token.top ts

/-- Sort tokens by their `x0` coordinate ascending. -/
def sortByX0 (ts : List Token) : List Token := sortBy Token.x0 ts

/-- Insertion sort on rationals (used by the quantile embedding). -/
def insertQ (x : ℚ) : List ℚ → List ℚ
  | [] => [x]
  | y :: ys => if y ≤ x then y :: insertQ x ys else x :: y :: ys

/-- Sort a list of rationals ascending. -/
def sortQ : List ℚ → List ℚ
  | [] => []
  | x :: xs => insertQ x (sortQ xs)

/-- Pandas `Series.quantile(0.80)` with the default linear interpolation:
position `h = (n-1)*0.8`, result `v[⌊h⌋] + (h-⌊h⌋)·(v[⌊h⌋+1]-v[⌊h⌋])`. -/
def quantile80 (xs : List ℚ) : ℚ :=
  let s := sortQ xs
  match s with
  | [] => 0
  | v :: _ =>
    let n := s.length
    let h : ℚ := ((n : ℚ) - 1) * (4 / 5)
    let i : ℕ := (Rat.floor h).toNat
    let lo := s.getD i v
    let hi := s.getD (i + 1) lo
    lo + (h - (Rat.floor h : ℚ)) * (hi - lo)

/-- Embedding of `is_breakdown_page(words_df)`: the page shows the table when
the lower-cased joined text contains the title phrase, or contains all of
"project", "member", "duration". -/
def is_breakdown_page (words : List Token) : Bool :=
  if words = [] then false
  else
    let text := String.intercalate (" ") (words.map (fun w => pyLower w.text))
    containsSub text ("project and member breakdown") ||
    (containsSub text ("project") && containsSub text ("member") &&
     containsSub text ("duration"))

/-- Embedding of `left_text_near(words_df, top, x_limit, y_tol)`: join the
texts of the tokens in the vertical band with `x0 < x_limit`, sorted by `x0`,
then strip. -/
def left_text_near (words : List Token) (top x_limit y_tol : ℚ) : String :=
  let lband := words.filter
    (fun w => decide (top - y_tol ≤ w.top) && decide (w.top ≤ top + y_tol) &&
              decide (w.x0 < x_limit))
  pyStrip (String.intercalate (" ") ((sortByX0 lband).map Token.text))

/-- Embedding of `find_client_x_min(words_df)`: min `x0` of a token whose
stripped lower-cased text is "client", minus 4; else the 0.80 quantile of all
`x0`; `None` on an empty page. -/
def find_client_x_min (words : List Token) : Option ℚ :=
  let clients := words.filter (fun w => pyLower (pyStrip w.text) = "client")
  match listMinQ (clients.map Token.x0) with
  | some m => some (m - 4)
  | none => if words = [] then none else some (quantile80 (words.map Token.x0))

/-- Embedding of `text_in_band(words_df, top, xmin, xmax, y_tol)`: join the
texts of the tokens in the vertical band with `xmin ≤ x0 ≤ xmax`, sorted by
`x0`, then strip. -/
def text_in_band (words : List Token) (top xmin xmax y_tol : ℚ) : String :=
  let lband := words.filter
    (fun w => decide (top - y_tol ≤ w.top) && decide (w.top ≤ top + y_tol) &&
              decide (xmin ≤ w.x0) && decide (w.x0 ≤ xmax))
  pyStrip (String.intercalate (" ") ((sortByX0 lband).map Token.text))

/-- Head test for the opening parenthesis of the count suffix. -/
def parenHead (l : List Char) : Bool :=
  match l with
  | [] => false
  | c2 :: _ => decide (c2 = '(')

/-- Checker for `\(\d+\)\s*$` on the whitespace-trimmed reversed text. -/
def parenSuffixCheck (l : List Char) : Bool :=
  match l with
  | [] => false
  | c :: rest =>
    decide (c = ')') && decide (rest.takeWhile isDigitChar ≠ []) &&
    parenHead (rest.dropWhile isDigitChar)

/-- Test for `re.search(r"\(\d+\)\s*$", left)`: the text ends with a
parenthesized nonempty digit run, possibly followed by whitespace. -/
def hasParenCountSuffix (s : String) : Bool :=
  parenSuffixCheck (s.data.reverse.dropWhile pyIsSpace)

/-- Rest of the suffix removal after the digit run was consumed: expects the
opening parenthesis and returns the stripped remaining prefix. -/
def parenStripTail (s : String) (l : List Char) : String :=
  match l with
  | [] => pyStrip s
  | c2 :: rest3 => if c2 = '(' then pyStrip (String.mk rest3.reverse) else pyStrip s

/-- Suffix removal on the whitespace-trimmed reversed text. -/
def parenStripResult (s : String) (l : List Char) : String :=
  match l with
  | [] => pyStrip s
  | c :: rest =>
    if c = ')' then
      if rest.takeWhile isDigitChar = [] then pyStrip s
      else parenStripTail s (rest.dropWhile isDigitChar)
    else pyStrip s

/-- Embedding of `re.sub(r"\s*\(\d+\)\s*$", "", left).strip()`: remove the
trailing parenthesized digit run together with surrounding whitespace, then
strip the remainder. -/
def stripParenCount (s : String) : String :=
  parenStripResult s (s.data.reverse.dropWhile pyIsSpace)

/-- Python `str.startswith(pre)` on the characters of the strings. -/
def pyStartsWith (s pre : String) : Bool := pre.data.isPrefixOf s.data

/-- Embedding of `classify_left(left)`: `(proj, mem)` where a "total" prefix
gives `(some "TOTAL", none)`, a "without" prefix gives
`(some "Without project", none)`, a parenthesized-count suffix gives the
stripped label as project, and anything else is a member; empty text gives
`(none, none)`. -/
def classify_left (left : String) : Option String × Option String :=
  if left = "" then (none, none)
  else
    let lo := pyStrip (pyLower left)
    if pyStartsWith lo ("total") then (some ("TOTAL"), none)
    else if pyStartsWith lo ("without") then (some ("Without project"), none)
    else if hasParenCountSuffix left then (some (stripParenCount left), none)
    else (none, some left)

/-- One extracted row, the dict built by `parse_page`. -/
structure Row where
  PROJECT : Option String
  MEMBER : Option String
  DURATION : String
  DURATION_PCT : String
  AMOUNT : String
  CLIENT : String
deriving Repr, DecidableEq

/-- Duration anchors of a page: tokens matching `DUR_RE`, sorted by `top`
(`dur = words[...str.match(DUR_RE)].sort_values("top")`). -/
def durAnchors (words : List Token) : List Token :=
  sortByTop (words.filter (fun w => matchesDUR w.text))

/-- Percentage anchors of a page: tokens matching `PCT_RE`, sorted by `top`. -/
def pctAnchors (words : List Token) : List Token :=
  sortByTop (words.filter (fun w => matchesPCT w.text))

/-- The `client_x_min` computed by `parse_page`:
`find_client_x_min(words) or float(words["x0"].quantile(0.80))` — Python `or`
falls through both on `None` and on a falsy `0.0`. -/
def client_x_min_of (words : List Token) : ℚ :=
  match find_client_x_min words with
  | some v => if v = 0 then quantile80 (words.map Token.x0) else v
  | none => quantile80 (words.map Token.x0)

/-- Maximal `x0` on the page (`words["x0"].max()`), defaulting to 0. -/
def maxX0D (words : List Token) : ℚ :=
  (listMaxQ (words.map Token.x0)).getD 0

/-- Body of the `for (_, d), (_, p) in zip(dur.iterrows(), pct.iterrows())`
loop of `parse_page`: builds the row for the anchor pair `(d, p)`, or `none`
when the left text classifies as neither project nor member (`continue`). -/
def rowFromAnchors (words : List Token) (duration_x_min pct_x_min client_x_min : ℚ)
    (d p : Token) : Option Row :=
  let top := d.top
  let LEFT_MAX := min duration_x_min pct_x_min - 10
  let AMT_MIN := pct_x_min + 10
  let AMT_MAX := client_x_min - 10
  let left := left_text_near words top LEFT_MAX (5 / 2)
  let cls := classify_left left
  if cls.1 = none ∧ cls.2 = none then none
  else
    let amount_raw0 := text_in_band words top AMT_MIN AMT_MAX (5 / 2)
    let amount_raw1 :=
      if amount_raw0 = "" then
        let cand := sortByX0 (words.filter
          (fun w => decide (top - 5 / 2 ≤ w.top) && decide (w.top ≤ top + 5 / 2) &&
                    decide (pct_x_min < w.x0) && decide (w.x0 < client_x_min)))
        match (cand.map Token.text).find? (fun t => matchesAMT (pyStrip t)) with
        | some t => pyStrip t
        | none => ""
      else amount_raw0
    let amount_raw := if amount_raw1 = "" then ("-") else amount_raw1
    let client := text_in_band words top client_x_min (maxX0D words + 5) (5 / 2)
    some { PROJECT := cls.1, MEMBER := cls.2, DURATION := d.text,
           DURATION_PCT := replaceCommaDot p.text, AMOUNT := amount_raw,
           CLIENT := client }

/-- Embedding of `parse_page(page)` on the page's extracted token list:
anchor on duration/percentage tokens, pair them positionally with `zip`, and
emit one row per pair whose left text classifies. -/
def parse_page (words : List Token) : List Row :=
  if words = [] then []
  else if durAnchors words = [] ∨ pctAnchors words = [] then []
  else
    ((durAnchors words).zip (pctAnchors words)).filterMap
      (fun dp => rowFromAnchors words
        ((listMinQ ((durAnchors words).map Token.x0)).getD 0)
        ((listMinQ ((pctAnchors words).map Token.x0)).getD 0)
        (client_x_min_of words) dp.1 dp.2)

/-- A document is the list of its pages, each a list of extracted tokens. -/
abbrev PDFDoc := List (List Token)

/-- Embedding of the inner `collect_rows(pages_range)` of `process_pdf`: the
rows of every breakdown page in the given page list, in order. -/
def collect_rows (pages : List (List Token)) : List Row :=
  pages.foldr
    (fun pg acc => (if is_breakdown_page pg then parse_page pg else []) ++ acc) []

/-- Final normalization of `process_pdf`: on a nonempty frame, replace commas
with dots in the `DURATION_%` column. -/
def normalizeRows (rows : List Row) : List Row :=
  if rows = [] then rows
  else rows.map (fun r => { r with DURATION_PCT := replaceCommaDot r.DURATION_PCT })

/-- Embedding of `process_pdf(file_bytes)` on the rendered pages: scan pages
from index 1 when the document has more than one page, fall back to scanning
all pages when that yields nothing, then normalize the percent column. -/
def process_pdf (doc : PDFDoc) : List Row :=
  let first := if doc.length > 1 then collect_rows (doc.drop 1) else []
  let all_rows := if first = [] then collect_rows doc else first
  normalizeRows all_rows

/-!  Spec-side definitions.  The following definitions follow the words of
the specification (not the source); they exist only to be compared against
the source-derived functions above. -/

/-- Spec-side pattern of the output percentage field,
`^\d{1,3}(\.\d+)?%$` with the dot as the only admissible separator. -/
def specPctDotOnly (s : String) : Bool :=
  decide (1 ≤ (s.data.takeWhile isDigitChar).length) &&
  decide ((s.data.takeWhile isDigitChar).length ≤ 3) &&
  (match s.data.dropWhile isDigitChar with
   | [] => false
   | c :: r2 =>
     (decide (c = '%') && decide (r2 = [])) ||
     (decide (c = '.') && pctTail r2))

/-- Spec-side pairing rule: the percentage anchor whose `top` is closest to
the given duration-anchor `top` (nearest-top distance, first such on ties). -/
def specNearestPctAnchor (t : ℚ) (ps : List Token) : Option Token :=
  ps.foldl
    (fun acc p =>
      match acc with
      | none => some p
      | some q => if |p.top - t| < |q.top - t| then some p else some q)
    none

/-- Spec-side client text: concatenation of the row-band tokens with
`x0 ≥ clientXMin`, excluding any stray `"-"` token from the amount column. -/
def specClientText (words : List Token) (top xmin xmax y_tol : ℚ) : String :=
  let lband := words.filter
    (fun w => decide (top - y_tol ≤ w.top) && decide (w.top ≤ top + y_tol) &&
              decide (xmin ≤ w.x0) && decide (w.x0 ≤ xmax) &&
              decide (w.text ≠ "-"))
  pyStrip (String.intercalate (" ") ((sortByX0 lband).map Token.text))

/-!  Concrete pages used to instantiate the theorems. -/

/-- Sample breakdown page: header row plus one project row
`Marketing (2) | 02:15:00 | 18,40% | Acme`. -/
def samplePage : List Token :=
  [⟨"Project", 0, 5, 10, 12⟩, ⟨"Member", 20, 25, 10, 12⟩,
   ⟨"Duration", 50, 55, 10, 12⟩, ⟨"Client", 95, 99, 10, 12⟩,
   ⟨"Marketing", 0, 8, 100, 102⟩, ⟨"(2)", 9, 11, 100, 102⟩,
   ⟨"02:15:00", 50, 55, 100, 102⟩, ⟨"18,40%", 72, 77, 100, 102⟩,
   ⟨"Acme", 95, 99, 100, 102⟩]

/-- Sample single-page document built from `samplePage`. -/
def sampleDoc : PDFDoc := [samplePage]

/-- Page with two duration anchors (tops 100, 200) and two percentage anchors
(tops 198, 203): both percentage anchors are nearer to the second duration
anchor than to the first. -/
def c1page : List Token :=
  [⟨"Alpha(1)", 0, 8, 100, 102⟩, ⟨"Beta(2)", 0, 7, 200, 202⟩,
   ⟨"0:10:00", 50, 55, 100, 102⟩, ⟨"0:20:00", 50, 55, 200, 202⟩,
   ⟨"10%", 80, 83, 198, 200⟩, ⟨"90%", 80, 83, 203, 205⟩]

/-- Single-page document whose only data row is a member row (left text
`"John"`, neither a prefix keyword nor a parenthesized count). -/
def c2doc : PDFDoc :=
  [[⟨"Project", 0, 5, 10, 12⟩, ⟨"Member", 30, 35, 10, 12⟩,
    ⟨"Duration", 50, 55, 10, 12⟩, ⟨"Client", 90, 94, 10, 12⟩,
    ⟨"John", 0, 4, 100, 102⟩, ⟨"1:00:00", 50, 55, 100, 102⟩,
    ⟨"50%", 70, 73, 100, 102⟩]]

/-- Page whose client band contains a stray `"-"` token (x0 = 98, to the right
of the client boundary 96) next to the client name. -/
def c8page : List Token :=
  [⟨"Proj(1)", 0, 6, 100, 102⟩, ⟨"1:00:00", 40, 45, 100, 102⟩,
   ⟨"25%", 60, 63, 100, 102⟩, ⟨"Client", 100, 104, 10, 12⟩,
   ⟨"-", 98, 99, 100, 102⟩, ⟨"Acme", 110, 114, 100, 102⟩]

/-- The row `parse_page` extracts from `samplePage`. -/
def sampleRow : Row :=
  ⟨some ("Marketing"), none, ("02:15:00"), ("18.40%"), ("-"), ("Acme")⟩

/-- The member row `process_pdf` extracts from `c2doc`. -/
def memberRow : Row :=
  ⟨none, some ("John"), ("1:00:00"), ("50%"), ("-"), ("")⟩

/-- The row `parse_page` extracts from `c8page`. -/
def c8row : Row :=
  ⟨some ("Proj"), none, ("1:00:00"), ("25%"), ("-"), ("- Acme")⟩

/-!  General lemmas about the embedded list operations. -/

theorem length_insertBy (key : Token → ℚ) (t : Token) (l : List Token) :
    (insertBy key t l).length = l.length + 1 := by
  induction l with
  | nil => rfl
  | cons u us ih =>
    unfold insertBy
    split <;> simp [ih]

theorem length_sortBy (key : Token → ℚ) (l : List Token) :
    (sortBy key l).length = l.length := by
  induction l with
  | nil => rfl
  | cons t ts ih => simp [sortBy, length_insertBy, ih]

theorem mem_insertBy {key : Token → ℚ} {t u : Token} {l : List Token} :
    u ∈ insertBy key t l ↔ u = t ∨ u ∈ l := by
  induction l with
  | nil => simp [insertBy]
  | cons v vs ih =>
    unfold insertBy
    split
    · simp only [List.mem_cons, ih]
      tauto
    · simp

theorem mem_sortBy {key : Token → ℚ} {u : Token} {l : List Token} :
    u ∈ sortBy key l ↔ u ∈ l := by
  induction l with
  | nil => simp [sortBy]
  | cons t ts ih => simp [sortBy, mem_insertBy, ih]

theorem collect_rows_cons (pg : List Token) (rest : List (List Token)) :
    collect_rows (pg :: rest) =
      (if is_breakdown_page pg then parse_page pg else []) ++ collect_rows rest :=
  rfl

theorem collect_rows_eq_nil (pages : List (List Token))
    (h : ∀ pg ∈ pages, is_breakdown_page pg = false ∨ parse_page pg = []) :
    collect_rows pages = [] := by
  induction pages with
  | nil => rfl
  | cons pg rest ih =>
    have hpg := h pg (by simp)
    have hrest : collect_rows rest = [] := ih (fun q hq => h q (by simp [hq]))
    rw [collect_rows_cons]
    rcases hpg with hf | hp
    · simp [hf, hrest]
    · simp [hp, hrest]

/-!  Claim theorems. -/

/-- C10: on every page, row assembly emits at most
`min (#duration anchors) (#percentage anchors)` rows; in particular a page
with zero anchors of either kind contributes zero rows. -/
theorem c10_rows_le_min_anchors (words : List Token) :
    (parse_page words).length ≤
      min (durAnchors words).length (pctAnchors words).length := by
  unfold parse_page
  split
  · simp
  · split
    · simp
    · refine le_trans (List.length_filterMap_le _ _) ?_
      rw [List.length_zip]

/-- C9: `process_pdf` is deterministic — in the pure embedding, with the
page-rendering collaborator's output fixed, equal inputs give equal result
tables. -/
theorem c9_deterministic (d1 d2 : PDFDoc) (h : d1 = d2) :
    process_pdf d1 = process_pdf d2 := by rw [h]

theorem c9_deterministic_witness : process_pdf sampleDoc = process_pdf sampleDoc :=
  c9_deterministic sampleDoc sampleDoc rfl

/-- C7: `process_pdf` first scans pages from index 1 when the document has
more than one page, and scans all pages from index 0 exactly when that first
pass (or a single-page document, which skips it) yields zero rows. -/
theorem c7_page_scan_order (doc : PDFDoc) :
    process_pdf doc =
      if doc.length > 1 ∧ collect_rows (doc.drop 1) ≠ ([] : List Row)
      then normalizeRows (collect_rows (doc.drop 1))
      else normalizeRows (collect_rows doc) := by
  unfold process_pdf
  by_cases h1 : doc.length > 1
  · by_cases h2 : collect_rows (doc.drop 1) = []
    · rw [List.drop_one] at h2
      simp [h1, h2, List.drop_one]
    · rw [List.drop_one] at h2
      simp [h1, h2, List.drop_one]
  · simp [h1]

/-- C3: a document none of whose pages yields table rows (non-breakdown
pages, or pages — possibly empty of text — whose parse gives nothing)
produces the empty table; the embedding is total, so no exception arises. -/
theorem c3_no_table_empty (doc : PDFDoc)
    (h : ∀ pg ∈ doc, is_breakdown_page pg = false ∨ parse_page pg = []) :
    process_pdf doc = [] := by
  have hall : collect_rows doc = [] := collect_rows_eq_nil doc h
  have hdrop : collect_rows (doc.drop 1) = [] :=
    collect_rows_eq_nil _ (fun pg hpg => h pg (List.mem_of_mem_drop hpg))
  rw [List.drop_one] at hdrop
  unfold process_pdf
  by_cases h1 : doc.length > 1 <;>
    simp [h1, hall, hdrop, normalizeRows, List.drop_one]

theorem c3_no_table_empty_witness : process_pdf [([] : List Token)] = [] :=
  c3_no_table_empty [[]] (by decide)

/-- C1 counterexample: on `c1page` the code pairs the second duration anchor
(top 200) with the percentage token `"90%"` (top 203, index pairing), while
the percentage anchor nearest in top to 200 is `"10%"` (top 198) — so rows
are not paired by nearest-top distance. -/
theorem c1_pairing_counterexample :
    ((parse_page c1page).map Row.DURATION_PCT) = [("10%"), ("90%")] ∧
    ((durAnchors c1page).map Token.top) = [100, 200] ∧
    ((specNearestPctAnchor 200 (pctAnchors c1page)).map Token.text) = some ("10%") := by
  with_unfolding_all decide

/-- C2 counterexample: the document `c2doc` contains exactly one data row,
a member row (`PROJECT = none`, `MEMBER = some "John"`), and `process_pdf`
keeps it in the final table instead of dropping it. -/
theorem c2_member_row_counterexample :
    process_pdf c2doc =
      [{ PROJECT := none, MEMBER := some ("John"), DURATION := ("1:00:00"),
         DURATION_PCT := ("50%"), AMOUNT := ("-"), CLIENT := ("") }] := by
  with_unfolding_all decide

/-- C8 counterexample: on `c8page` the assembled client text is `"- Acme"`,
including the stray `"-"` token at x0 = 98 ≥ clientXMin = 96, while the
spec-side client text (which excludes stray `"-"` tokens) is `"Acme"`. -/
theorem c8_client_counterexample :
    ((parse_page c8page).map Row.CLIENT) = [("- Acme")] ∧
    specClientText c8page 100 (client_x_min_of c8page) (maxX0D c8page + 5) (5 / 2)
      = ("Acme") := by
  with_unfolding_all decide

/-!  Structure of rows produced by the assembler and the pipeline. -/

theorem rowFromAnchors_some {words : List Token} {a b c : ℚ} {d p : Token} {r : Row}
    (h : rowFromAnchors words a b c d p = some r) :
    r.PROJECT = (classify_left (left_text_near words d.top (min a b - 10) (5 / 2))).1 ∧
    r.MEMBER = (classify_left (left_text_near words d.top (min a b - 10) (5 / 2))).2 ∧
    r.DURATION = d.text ∧
    r.DURATION_PCT = replaceCommaDot p.text ∧
    r.CLIENT = text_in_band words d.top c (maxX0D words + 5) (5 / 2) ∧
    ¬((classify_left (left_text_near words d.top (min a b - 10) (5 / 2))).1 = none ∧
      (classify_left (left_text_near words d.top (min a b - 10) (5 / 2))).2 = none) := by
  unfold rowFromAnchors at h
  simp only [] at h
  split at h
  · simp at h
  · rename_i hcls
    obtain rfl := (Option.some.injEq _ _).mp h.symm
    refine ⟨rfl, rfl, rfl, rfl, rfl, hcls⟩

theorem mem_parse_page {words : List Token} {r : Row} (h : r ∈ parse_page words) :
    ∃ dp ∈ (durAnchors words).zip (pctAnchors words),
      rowFromAnchors words ((listMinQ ((durAnchors words).map Token.x0)).getD 0)
        ((listMinQ ((pctAnchors words).map Token.x0)).getD 0)
        (client_x_min_of words) dp.1 dp.2 = some r := by
  unfold parse_page at h
  split at h
  · simp at h
  · split at h
    · simp at h
    · exact List.mem_filterMap.mp h

theorem mem_collect_rows {pages : List (List Token)} {r : Row}
    (h : r ∈ collect_rows pages) :
    ∃ pg ∈ pages, is_breakdown_page pg = true ∧ r ∈ parse_page pg := by
  induction pages with
  | nil => simp [collect_rows] at h
  | cons pg rest ih =>
    rw [collect_rows_cons] at h
    rcases List.mem_append.mp h with h1 | h2
    · by_cases hb : is_breakdown_page pg
      · exact ⟨pg, by simp, hb, by rwa [if_pos hb] at h1⟩
      · rw [if_neg hb] at h1
        simp at h1
    · obtain ⟨q, hq, hbq, hr⟩ := ih h2
      exact ⟨q, by simp [hq], hbq, hr⟩

theorem mem_normalizeRows {rows : List Row} {r : Row} (h : r ∈ normalizeRows rows) :
    ∃ r0 ∈ rows, r = { r0 with DURATION_PCT := replaceCommaDot r0.DURATION_PCT } := by
  unfold normalizeRows at h
  split at h
  · rename_i hnil
    rw [hnil] at h
    simp at h
  · obtain ⟨r0, h0, he⟩ := List.mem_map.mp h
    exact ⟨r0, h0, he.symm⟩

theorem process_pdf_eq (doc : PDFDoc) :
    process_pdf doc =
      normalizeRows
        (if (if doc.length > 1 then collect_rows (doc.drop 1) else []) = []
         then collect_rows doc
         else if doc.length > 1 then collect_rows (doc.drop 1) else []) := rfl

theorem mem_process_pdf {doc : PDFDoc} {r : Row} (h : r ∈ process_pdf doc) :
    ∃ r0, (∃ pg ∈ doc, is_breakdown_page pg = true ∧ r0 ∈ parse_page pg) ∧
      r = { r0 with DURATION_PCT := replaceCommaDot r0.DURATION_PCT } := by
  rw [process_pdf_eq] at h
  obtain ⟨r0, h0, he⟩ := mem_normalizeRows h
  refine ⟨r0, ?_, he⟩
  by_cases hl : doc.length > 1
  · simp only [if_pos hl] at h0
    by_cases hc : collect_rows (doc.drop 1) = []
    · rw [if_pos hc] at h0
      exact mem_collect_rows h0
    · rw [if_neg hc] at h0
      obtain ⟨pg, hpg, hb, hr⟩ := mem_collect_rows h0
      exact ⟨pg, List.mem_of_mem_drop hpg, hb, hr⟩
  · simp only [if_neg hl, if_true] at h0
    exact mem_collect_rows h0

/-- C1 amended: row assembly pairs anchors positionally — every emitted row
takes its duration text and its percentage text from the same index `i` of
the two independently top-sorted anchor lists (index pairing, not
nearest-top pairing). -/
theorem c1_index_pairing (words : List Token) (r : Row) (h : r ∈ parse_page words) :
    ∃ i : ℕ, ∃ hd : i < (durAnchors words).length, ∃ hp : i < (pctAnchors words).length,
      r.DURATION = ((durAnchors words).get ⟨i, hd⟩).text ∧
      r.DURATION_PCT = replaceCommaDot ((pctAnchors words).get ⟨i, hp⟩).text := by
  obtain ⟨dp, hdp, hrow⟩ := mem_parse_page h
  obtain ⟨n, hget⟩ := List.get_of_mem hdp
  have hmin : (n : ℕ) < (durAnchors words).length ⊓ (pctAnchors words).length :=
    lt_of_lt_of_le n.isLt (le_of_eq (List.length_zip _ _))
  have hd : (n : ℕ) < (durAnchors words).length :=
    lt_of_lt_of_le hmin inf_le_left
  have hp : (n : ℕ) < (pctAnchors words).length :=
    lt_of_lt_of_le hmin inf_le_right
  have hz : dp = ((durAnchors words).get ⟨n, hd⟩, (pctAnchors words).get ⟨n, hp⟩) := by
    rw [← hget]
    simp [List.get_eq_getElem, List.getElem_zip]
  have hfields := rowFromAnchors_some hrow
  refine ⟨n, hd, hp, ?_, ?_⟩
  · rw [hfields.2.2.1, hz]
  · rw [hfields.2.2.2.1, hz]

theorem c1_index_pairing_witness :
    sampleRow ∈ parse_page samplePage ∧
    (∃ i : ℕ, ∃ hd : i < (durAnchors samplePage).length,
      ∃ hp : i < (pctAnchors samplePage).length,
      sampleRow.DURATION = ((durAnchors samplePage).get ⟨i, hd⟩).text ∧
      sampleRow.DURATION_PCT =
        replaceCommaDot ((pctAnchors samplePage).get ⟨i, hp⟩).text) :=
  ⟨by with_unfolding_all decide,
   c1_index_pairing samplePage sampleRow (by with_unfolding_all decide)⟩

/-- C2 amended: rows whose left text classifies as neither project-like nor
member are dropped; every row of the final table carries a project label or a
member name — member rows included — rather than member rows being removed. -/
theorem c2_rows_have_project_or_member (doc : PDFDoc) (r : Row)
    (h : r ∈ process_pdf doc) : r.PROJECT ≠ none ∨ r.MEMBER ≠ none := by
  obtain ⟨r0, ⟨pg, hpg, hb, hr⟩, he⟩ := mem_process_pdf h
  obtain ⟨dp, hdp, hrow⟩ := mem_parse_page hr
  have hfields := rowFromAnchors_some hrow
  have hP : r.PROJECT = r0.PROJECT := by rw [he]
  have hM : r.MEMBER = r0.MEMBER := by rw [he]
  have hcls := hfields.2.2.2.2.2
  rw [← hfields.1, ← hfields.2.1] at hcls
  rw [hP, hM]
  tauto

theorem c2_rows_have_project_or_member_witness :
    memberRow ∈ process_pdf c2doc ∧
    (memberRow.PROJECT ≠ none ∨ memberRow.MEMBER ≠ none) :=
  ⟨by with_unfolding_all decide,
   c2_rows_have_project_or_member c2doc memberRow (by with_unfolding_all decide)⟩

/-- C8 amended: every assembled row's client field is the band text of its
own row band — the vertical band at the top of the duration anchor of the
zip pair that generates the row (the anchor also supplying the row's
duration text) — over `clientXMin ≤ x0 ≤ maxX0 + 5`, with no exclusion of
stray `"-"` tokens. -/
theorem c8_client_band_text (words : List Token) (r : Row) (h : r ∈ parse_page words) :
    ∃ dp ∈ (durAnchors words).zip (pctAnchors words),
      rowFromAnchors words ((listMinQ ((durAnchors words).map Token.x0)).getD 0)
        ((listMinQ ((pctAnchors words).map Token.x0)).getD 0)
        (client_x_min_of words) dp.1 dp.2 = some r ∧
      r.DURATION = dp.1.text ∧
      r.CLIENT = text_in_band words dp.1.top (client_x_min_of words)
        (maxX0D words + 5) (5 / 2) := by
  obtain ⟨dp, hdp, hrow⟩ := mem_parse_page h
  have hfields := rowFromAnchors_some hrow
  exact ⟨dp, hdp, hrow, hfields.2.2.1, hfields.2.2.2.2.1⟩

theorem c8_client_band_text_witness :
    c8row ∈ parse_page c8page ∧
    (∃ dp ∈ (durAnchors c8page).zip (pctAnchors c8page),
      rowFromAnchors c8page ((listMinQ ((durAnchors c8page).map Token.x0)).getD 0)
        ((listMinQ ((pctAnchors c8page).map Token.x0)).getD 0)
        (client_x_min_of c8page) dp.1 dp.2 = some c8row ∧
      c8row.DURATION = dp.1.text ∧
      c8row.CLIENT = text_in_band c8page dp.1.top (client_x_min_of c8page)
        (maxX0D c8page + 5) (5 / 2)) :=
  ⟨by with_unfolding_all decide,
   c8_client_band_text c8page c8row (by with_unfolding_all decide)⟩

/-!  Percent normalization: comma-to-dot replacement maps `PCT_RE` matches to
dot-only matches. -/

theorem isDigitChar_commaDotMap (c : Char) :
    isDigitChar (if c = ',' then '.' else c) = isDigitChar c := by
  by_cases hc : c = ','
  · rw [if_pos hc, hc]
    decide
  · rw [if_neg hc]

theorem commaDotMap_comp_digit :
    (isDigitChar ∘ fun c => if c = ',' then '.' else c) = isDigitChar :=
  funext isDigitChar_commaDotMap

theorem takeWhile_digit_replace (l : List Char) :
    (l.map (fun c => if c = ',' then '.' else c)).takeWhile isDigitChar
      = (l.takeWhile isDigitChar).map (fun c => if c = ',' then '.' else c) := by
  rw [List.takeWhile_map, commaDotMap_comp_digit]

theorem dropWhile_digit_replace (l : List Char) :
    (l.map (fun c => if c = ',' then '.' else c)).dropWhile isDigitChar
      = (l.dropWhile isDigitChar).map (fun c => if c = ',' then '.' else c) := by
  rw [List.dropWhile_map, commaDotMap_comp_digit]

theorem pctTail_replace {r : List Char} (h : pctTail r = true) :
    pctTail (r.map (fun c => if c = ',' then '.' else c)) = true := by
  unfold pctTail at h ⊢
  rw [takeWhile_digit_replace, dropWhile_digit_replace, List.length_map]
  simp only [Bool.and_eq_true, decide_eq_true_eq] at h ⊢
  refine ⟨h.1, ?_⟩
  rw [h.2]
  rfl

theorem matchesPCT_replaceCommaDot {s : String} (h : matchesPCT s = true) :
    specPctDotOnly (replaceCommaDot s) = true := by
  unfold matchesPCT at h
  unfold specPctDotOnly replaceCommaDot
  show (decide (1 ≤ ((s.data.map fun c => if c = ',' then '.' else c).takeWhile isDigitChar).length) &&
        decide (((s.data.map fun c => if c = ',' then '.' else c).takeWhile isDigitChar).length ≤ 3) &&
        _) = true
  rw [takeWhile_digit_replace, dropWhile_digit_replace, List.length_map]
  cases hd : s.data.dropWhile isDigitChar with
  | nil =>
    rw [hd] at h
    simp at h
  | cons c r2 =>
    rw [hd] at h
    simp only [Bool.and_eq_true, Bool.or_eq_true, decide_eq_true_eq] at h
    obtain ⟨⟨h1, h2⟩, h3⟩ := h
    rw [List.map_cons]
    simp only [Bool.and_eq_true, Bool.or_eq_true, decide_eq_true_eq]
    refine ⟨⟨h1, h2⟩, ?_⟩
    rcases h3 with ⟨hc, hr⟩ | ⟨hc, htail⟩
    · left
      subst hc
      subst hr
      exact ⟨by decide, rfl⟩
    · right
      have hfc : (if c = ',' then '.' else c) = '.' := by
        rcases hc with hc | hc <;> subst hc <;> decide
      exact ⟨hfc, pctTail_replace htail⟩

theorem replaceCommaDot_replaceCommaDot (s : String) :
    replaceCommaDot (replaceCommaDot s) = replaceCommaDot s := by
  unfold replaceCommaDot
  rw [String.ext_iff]
  show ((s.data.map _).map _) = s.data.map _
  rw [List.map_map]
  congr 1
  funext c
  by_cases hc : c = ',' <;> simp [hc]

/-- C4: the percentage field of every row of the final table matches
`^\d{1,3}(\.\d+)?%$` with a dot as the only decimal separator, whatever
separator the matched input token used. -/
theorem c4_output_pct_dot_only (doc : PDFDoc) (r : Row) (h : r ∈ process_pdf doc) :
    specPctDotOnly r.DURATION_PCT = true := by
  obtain ⟨r0, ⟨pg, hpg, hb, hr⟩, he⟩ := mem_process_pdf h
  obtain ⟨dp, hdp, hrow⟩ := mem_parse_page hr
  have hfields := rowFromAnchors_some hrow
  have hpct_mem : dp.2 ∈ pctAnchors pg := (List.of_mem_zip hdp).2
  unfold pctAnchors sortByTop at hpct_mem
  have hmatch : matchesPCT dp.2.text = true :=
    (List.mem_filter.mp (mem_sortBy.mp hpct_mem)).2
  have h0 : r0.DURATION_PCT = replaceCommaDot dp.2.text := hfields.2.2.2.1
  have hr2 : r.DURATION_PCT = replaceCommaDot r0.DURATION_PCT := by rw [he]
  rw [hr2, h0, replaceCommaDot_replaceCommaDot]
  exact matchesPCT_replaceCommaDot hmatch

theorem c4_output_pct_dot_only_witness :
    sampleRow ∈ process_pdf sampleDoc ∧ specPctDotOnly sampleRow.DURATION_PCT = true :=
  ⟨by with_unfolding_all decide,
   c4_output_pct_dot_only sampleDoc sampleRow (by with_unfolding_all decide)⟩

/-!  The left-text classifier. -/

/-- C5: nonempty left text whose trimmed lower-cased form starts with "total"
classifies as Total with label exactly `"TOTAL"`, and with "without" as
WithoutProject with label exactly `"Without project"`; the prefix rules fire
before the parenthesized-count rule. -/
theorem c5_prefix_classification (left : String) :
    (pyStartsWith (pyStrip (pyLower left)) ("total") = true →
      classify_left left = (some ("TOTAL"), none)) ∧
    (pyStartsWith (pyStrip (pyLower left)) ("without") = true →
      classify_left left = (some ("Without project"), none)) := by
  constructor
  · intro h
    have hne : left ≠ "" := by
      intro he
      rw [he] at h
      exact absurd h (by decide)
    simp [classify_left, hne, h]
  · intro h
    have hne : left ≠ "" := by
      intro he
      rw [he] at h
      exact absurd h (by decide)
    have hnt : pyStartsWith (pyStrip (pyLower left)) ("total") = false := by
      by_contra hcon
      rw [Bool.not_eq_false] at hcon
      unfold pyStartsWith at h hcon
      obtain ⟨t1, ht1⟩ := List.isPrefixOf_iff_prefix.mp hcon
      obtain ⟨t2, ht2⟩ := List.isPrefixOf_iff_prefix.mp h
      rw [← ht2] at ht1
      have hta : ("total").data = ['t', 'o', 't', 'a', 'l'] := rfl
      have htw : ("without").data = ['w', 'i', 't', 'h', 'o', 'u', 't'] := rfl
      rw [hta, htw] at ht1
      simp at ht1
    simp [classify_left, hne, hnt, h]

theorem c5_prefix_classification_witness :
    classify_left ("Total tracked") = (some ("TOTAL"), none) ∧
    classify_left ("without PROJECT (3)") = (some ("Without project"), none) :=
  ⟨(c5_prefix_classification ("Total tracked")).1 (by decide),
   (c5_prefix_classification ("without PROJECT (3)")).2 (by decide)⟩

theorem takeWhile_append_all {p : Char → Bool} {xs : List Char}
    (hxs : ∀ x ∈ xs, p x = true) {c : Char} (hc : p c = false) (r : List Char) :
    (xs ++ c :: r).takeWhile p = xs ∧ (xs ++ c :: r).dropWhile p = c :: r := by
  induction xs with
  | nil =>
    constructor
    · simp [List.takeWhile_cons, hc]
    · simp [List.dropWhile_cons, hc]
  | cons x xt ih =>
    have hx := hxs x (by simp)
    obtain ⟨h1, h2⟩ := ih (fun y hy => hxs y (by simp [hy]))
    constructor
    · simp [List.takeWhile_cons, hx, h1]
    · simp [List.dropWhile_cons, hx, h2]

theorem parenSuffix_structured (a d : List Char) (hd : d ≠ [])
    (hdd : ∀ x ∈ d, isDigitChar x = true) :
    hasParenCountSuffix (String.mk (a ++ '(' :: (d ++ [')']))) = true ∧
    stripParenCount (String.mk (a ++ '(' :: (d ++ [')']))) = pyStrip (String.mk a) := by
  have hdata : (String.mk (a ++ '(' :: (d ++ [')']))).data
      = a ++ '(' :: (d ++ [')']) := rfl
  have hrev : (a ++ '(' :: (d ++ [')'])).reverse
      = ')' :: (d.reverse ++ '(' :: a.reverse) := by
    simp
  have hdw : (')' :: (d.reverse ++ '(' :: a.reverse)).dropWhile pyIsSpace
      = ')' :: (d.reverse ++ '(' :: a.reverse) := by
    rw [List.dropWhile_cons]
    simp [pyIsSpace]
  have hall : ∀ x ∈ d.reverse, isDigitChar x = true := fun x hx =>
    hdd x (List.mem_reverse.mp hx)
  obtain ⟨htake, hdrop⟩ :=
    takeWhile_append_all hall (by decide : isDigitChar '(' = false) a.reverse
  have hne : d.reverse ≠ [] := by
    rw [ne_eq, List.reverse_eq_nil_iff]
    exact hd
  constructor
  · unfold hasParenCountSuffix
    rw [hdata, hrev, hdw]
    simp only [parenSuffixCheck]
    rw [htake, hdrop]
    simp [parenHead, hne]
  · unfold stripParenCount
    rw [hdata, hrev, hdw]
    simp only [parenStripResult]
    rw [htake, hdrop]
    rw [if_pos trivial, if_neg hne]
    simp [parenStripTail]

/-- C6: left text of shape `label(digits)` — not starting with "total" or
"without" — classifies as a project whose label is the text with the
parenthesized count removed and surrounding whitespace trimmed. -/
theorem c6_paren_suffix_label (a d : List Char) (hd : d ≠ [])
    (hdd : ∀ x ∈ d, isDigitChar x = true)
    (ht : pyStartsWith (pyStrip (pyLower (String.mk (a ++ '(' :: (d ++ [')'])))))
      ("total") = false)
    (hw : pyStartsWith (pyStrip (pyLower (String.mk (a ++ '(' :: (d ++ [')'])))))
      ("without") = false) :
    classify_left (String.mk (a ++ '(' :: (d ++ [')']))) =
      (some (pyStrip (String.mk a)), none) := by
  obtain ⟨hsuf, hstrip⟩ := parenSuffix_structured a d hd hdd
  have hne : String.mk (a ++ '(' :: (d ++ [')'])) ≠ "" := by
    rw [ne_eq, String.ext_iff]
    simp
  simp [classify_left, hne, ht, hw, hsuf, hstrip]

theorem c6_paren_suffix_label_witness :
    classify_left (String.mk ((("Website Redesign ").data) ++ '(' :: ((['4']) ++ [')'])))
      = (some (pyStrip ("Website Redesign ")), none) ∧
    String.mk ((("Website Redesign ").data) ++ '(' :: ((['4']) ++ [')']))
      = ("Website Redesign (4)") ∧
    pyStrip ("Website Redesign ") = ("Website Redesign") :=
  ⟨c6_paren_suffix_label (("Website Redesign ").data) (['4'])
      (by decide) (by decide) (by decide) (by decide),
   by decide, by decide⟩

end Toggl
